import Mathlib

/-!
Verification of the syftbox-rag ingestion and retrieval pipeline.

The definitions below are a shallow embedding of the repository's code:

* `buildRagDatabase` embeds `build_rag_database` from `app1.py` (the chunk
  loop, id scheme, per-document statistics and the final metadata record);
  `buildRagDatabaseF` is the same build with a fallible `collection.add`.
* `indexDocuments` embeds `RAGSystem.index_documents` from `rag_system.py`
  (the reuse-vs-rebuild decision table).
* `handleRequest` and `mkSources` embed `RAGService._handle_request` from
  `rag_service.py` (retrieval, relevance scores, generation error handling).
* `ragSystemQuery` embeds `RAGSystem.query`, `queryRag` embeds `query_rag`
  from `main.py`, `setupRag` embeds `setup_rag` from `main.py` and
  `RAGBuilder.setup_rag`, `processDocumentsRB` embeds
  `RAGBuilder.process_documents`, and `processDocumentsMain` embeds
  `process_documents` from `main.py`.
* The text splitter used by `app1.py` is an external library; `splitText`
  models it from the specification (see its doc comment).

External capabilities (embedding, generation, the vector store's nearest
neighbour search) appear as parameters or as explicit outcome values.
-/

set_option maxRecDepth 100000

namespace SyftRag

/-- Python `str.strip()` on a list of characters: drop whitespace from both
ends. `if chunk.strip():` in the source is truthiness of the stripped text,
i.e. `pyStrip chunk ≠ []`. -/
def pyStrip (s : List Char) : List Char :=
  ((s.dropWhile Char.isWhitespace).reverse.dropWhile Char.isWhitespace).reverse

/-- `os.path.basename`: the part of the path after the last slash. -/
def basename (p : String) : String :=
  ⟨(p.data.reverse.takeWhile (fun c => c ≠ '/')).reverse⟩

/-- Whether `n` is a prefix of `h` (used for the Python `in` substring test). -/
def startsWith : List Char → List Char → Bool
  | [], _ => true
  | _ :: _, [] => false
  | a :: as, b :: bs => a == b && startsWith as bs

/-- Python's `needle in haystack` substring test on strings. -/
def pyIn : List Char → List Char → Bool
  | n, [] => n.isEmpty
  | n, c :: t => startsWith n (c :: t) || pyIn n t

/-- Modelled from the spec: the chunker (`RecursiveCharacterTextSplitter`
from the langchain library, constructed with `chunk_size=1000` and
`chunk_overlap=200` in `app1.py`) is external library code that is not part
of this repository.  Following spec section 4.1, each chunk is at most
`chunkSize` characters and each chunk after the first begins with the
trailing `overlap` characters of the previous chunk. -/
def splitTextAux (chunkSize overlap : Nat) : Nat → List Char → List (List Char)
  | 0, t => [t]
  | fuel + 1, t =>
    if t.length ≤ chunkSize ∨ chunkSize ≤ overlap then [t]
    else t.take chunkSize :: splitTextAux chunkSize overlap fuel (t.drop (chunkSize - overlap))

/-- Modelled from the spec (continued): `splitText` runs `splitTextAux` with
enough fuel; every recursive step consumes at least one character, so
`text.length` steps always suffice. -/
def splitText (chunkSize overlap : Nat) (text : List Char) : List (List Char) :=
  splitTextAux chunkSize overlap text.length text

/-- The chunker instance used by `build_rag_database` in `app1.py`:
`RecursiveCharacterTextSplitter(chunk_size=1000, chunk_overlap=200)`. -/
def defaultSplitter (text : String) : List String :=
  (splitText 1000 200 text.data).map (fun l => ⟨l⟩)

/-- A page-level document record as produced by `load_document` in
`app1.py`: `page_content` plus `source` and optional `page` metadata. -/
structure Doc where
  pageContent : String
  source : Option String
  page : Option Nat
deriving DecidableEq

/-- `doc["metadata"].get("source", f"document_{i}")` in `build_rag_database`. -/
def sourceFile (i : Nat) (d : Doc) : String :=
  match d.source with
  | some s => s
  | none => "document_" ++ Nat.repr i

/-- `chunk_id = f"{os.path.basename(source_file)}_{i}_{j}"` in `app1.py`. -/
def mkChunkId (src : String) (i j : Nat) : String :=
  basename src ++ "_" ++ Nat.repr i ++ "_" ++ Nat.repr j

/-- The per-chunk metadata written by `build_rag_database` in `app1.py`. -/
structure ChunkMeta where
  source : String
  chunkId : Nat
  documentId : Nat
  page : Option Nat
deriving DecidableEq

/-- One record of the persisted vector collection: id, chunk text, metadata
(the embedding itself is computed inside the external store). -/
structure StoreEntry where
  id : String
  document : String
  metadata : ChunkMeta
deriving DecidableEq

/-- The per-source statistics tracked in `document_metadata`:
`{"chunks": 0, "pages": set()}`.  The page set is kept as a list without
duplicates, in insertion order. -/
structure DocStats where
  chunks : Nat
  pages : List Nat
deriving DecidableEq

/-- The `metadata.json` record written at the end of `build_rag_database`. -/
structure BuildMeta where
  collectionName : String
  documentCount : Nat
  chunkCount : Nat
  documents : List (String × DocStats)
  createdAt : String
deriving DecidableEq

/-- The mutable state of the build loop in `build_rag_database`: the
collection contents, `total_chunks`, and `document_metadata`. -/
structure BuildState where
  store : List StoreEntry
  totalChunks : Nat
  docMeta : List (String × DocStats)
deriving DecidableEq

/-- `if source_file not in document_metadata: document_metadata[source_file]
= {"chunks": 0, "pages": set()}` (a Python dict keyed by source). -/
def ensureEntry (m : List (String × DocStats)) (src : String) :
    List (String × DocStats) :=
  if m.any (fun p => p.1 == src) then m else m ++ [(src, ⟨0, []⟩)]

/-- Update the statistics stored under key `src`. -/
def modifyEntry (m : List (String × DocStats)) (src : String)
    (f : DocStats → DocStats) : List (String × DocStats) :=
  m.map (fun p => if p.1 == src then (p.1, f p.2) else p)

/-- `document_metadata[source_file]["chunks"] += 1`. -/
def bumpChunks (m : List (String × DocStats)) (src : String) :
    List (String × DocStats) :=
  modifyEntry m src (fun s => { s with chunks := s.chunks + 1 })

/-- `document_metadata[source_file]["pages"].add(page)` (set insertion). -/
def addPage (m : List (String × DocStats)) (src : String) (p : Nat) :
    List (String × DocStats) :=
  modifyEntry m src (fun s =>
    if p ∈ s.pages then s else { s with pages := s.pages ++ [p] })

/-- The body of the inner chunk loop of `build_rag_database`: skip
whitespace-only chunks, otherwise insert `(chunk_id, chunk, metadata)` into
the collection and update both counters. -/
def addChunkStep (src : String) (i : Nat) (page : Option Nat)
    (st : BuildState) (jc : Nat × String) : BuildState :=
  if pyStrip jc.2.data ≠ [] then
    { store := st.store ++
        [{ id := mkChunkId src i jc.1, document := jc.2,
           metadata := { source := src, chunkId := jc.1, documentId := i, page := page } }],
      totalChunks := st.totalChunks + 1,
      docMeta := bumpChunks st.docMeta src }
  else st

/-- The body of the outer document loop of `build_rag_database`: register
the source in `document_metadata`, record the page number if present, split
the text and run the chunk loop. -/
def processDocStep (splitter : String → List String) (st : BuildState)
    (idoc : Nat × Doc) : BuildState :=
  let i := idoc.1
  let d := idoc.2
  let src := sourceFile i d
  let st1 := { st with docMeta := ensureEntry st.docMeta src }
  let st2 := match d.page with
    | some p => { st1 with docMeta := addPage st1.docMeta src p }
    | none => st1
  ((splitter d.pageContent).enum).foldl (addChunkStep src i d.page) st2

/-- `build_rag_database(documents, output_dir, collection_name)` from
`app1.py`: the existing directory is removed, a fresh collection is created,
every document is processed in order, and a fresh metadata record is
written.  Returns the collection contents and the metadata record (the
function's return value in the source is `total_chunks`, which is the
`chunkCount` field). -/
def buildRagDatabase (splitter : String → List String) (documents : List Doc)
    (collectionName createdAt : String) : List StoreEntry × BuildMeta :=
  let final := (documents.enum).foldl (processDocStep splitter) ⟨[], 0, []⟩
  (final.store,
   { collectionName := collectionName,
     documentCount := documents.length,
     chunkCount := final.totalChunks,
     documents := final.docMeta,
     createdAt := createdAt })

/-- The chunk-loop body of `build_rag_database` when `collection.add` (which
embeds and inserts) can fail: the source has no try/except around the add,
so a raised exception propagates out of the whole build.  `failIds` says
which insertions fail. -/
def addChunkStepF (failIds : List String) (src : String) (i : Nat)
    (page : Option Nat) (st : BuildState) (jc : Nat × String) :
    Except String BuildState :=
  if pyStrip jc.2.data ≠ [] then
    if mkChunkId src i jc.1 ∈ failIds then
      .error ("add failed for id " ++ mkChunkId src i jc.1)
    else
      .ok { store := st.store ++
              [{ id := mkChunkId src i jc.1, document := jc.2,
                 metadata := { source := src, chunkId := jc.1, documentId := i, page := page } }],
            totalChunks := st.totalChunks + 1,
            docMeta := bumpChunks st.docMeta src }
  else .ok st

/-- The document-loop body of `build_rag_database` with a fallible
`collection.add`. -/
def processDocStepF (failIds : List String) (splitter : String → List String)
    (st : BuildState) (idoc : Nat × Doc) : Except String BuildState :=
  let i := idoc.1
  let d := idoc.2
  let src := sourceFile i d
  let st1 := { st with docMeta := ensureEntry st.docMeta src }
  let st2 := match d.page with
    | some p => { st1 with docMeta := addPage st1.docMeta src p }
    | none => st1
  ((splitter d.pageContent).enum).foldlM (addChunkStepF failIds src i d.page) st2

/-- `build_rag_database` with a fallible `collection.add`: an exception from
one insertion aborts the entire build. -/
def buildRagDatabaseF (failIds : List String) (splitter : String → List String)
    (documents : List Doc) (collectionName createdAt : String) :
    Except String (List StoreEntry × BuildMeta) := do
  let final ← (documents.enum).foldlM (processDocStepF failIds splitter) ⟨[], 0, []⟩
  return (final.store,
    { collectionName := collectionName,
      documentCount := documents.length,
      chunkCount := final.totalChunks,
      documents := final.docMeta,
      createdAt := createdAt })

/-- The on-disk state relevant to `RAGSystem.index_documents`: whether the
vector-store path exists, and the ids held by the persisted collection. -/
structure VectorStoreFS where
  pathExists : Bool
  storeIds : List String
deriving DecidableEq

/-- `RAGSystem.index_documents(documents, force_reindex)` from
`rag_system.py`.  If the path exists and `force_reindex` is false, the
existing collection is opened and its id count returned with no writes.
Otherwise any existing path is removed, a fresh collection is built by the
external indexer (`VectorStoreIndex.from_documents`, abstracted as
`chunker`, which yields the ids inserted for the given documents) and the
count is read back from the collection. -/
def indexDocuments (chunker : List Doc → List String) (fs : VectorStoreFS)
    (docs : List Doc) (forceReindex : Bool) : Nat × VectorStoreFS :=
  if fs.pathExists && !forceReindex then
    (fs.storeIds.length, fs)
  else
    let ids := chunker docs
    (ids.length, { pathExists := true, storeIds := ids })

/-- The raw result of `collection.query` as unpacked in
`RAGService._handle_request`: parallel lists of documents, metadata, ids,
and optionally distances. -/
structure QueryData where
  documents : List String
  metadatas : List String
  ids : List String
  distances : Option (List ℚ)
deriving DecidableEq

/-- One element of the `sources` list of a `RAGQueryResponse`. -/
structure RespSource where
  content : String
  metadata : String
  id : String
  relevance : Option ℚ
deriving DecidableEq

/-- The `RAGQueryResponse` model of `rag_service.py`. -/
structure RAGQueryResponse where
  answer : String
  sources : List RespSource
  error : Option String
deriving DecidableEq

/-- Python's `max` on a list of numbers (the source only calls it on
non-empty `distances`; the `[]` case is never reached there). -/
def pyMax (l : List ℚ) : ℚ :=
  match l with
  | [] => 0
  | x :: xs => xs.foldl max x

/-- `1 - (distances[i] / max(distances)) if max(distances) > 0 else 1` from
`RAGService._handle_request` (the same expression appears in `app2.py`). -/
def relevanceOf (distances : List ℚ) (d : ℚ) : ℚ :=
  if 0 < pyMax distances then 1 - d / pyMax distances else 1

/-- The `sources` list assembled in `RAGService._handle_request`: one entry
per retrieved chunk, in retrieval order; the relevance field is attached
only when `distances` is present and non-empty (Python truthiness of the
`distances` value). -/
def mkSources (documents metadatas ids : List String)
    (distances : Option (List ℚ)) : List RespSource :=
  (((documents.zip metadatas).zip ids).enum).map (fun p =>
    { content := p.2.1.1
      metadata := p.2.1.2
      id := p.2.2
      relevance :=
        match distances with
        | some ds => if ds.isEmpty then none else some (relevanceOf ds (ds.getD p.1 0))
        | none => none })

/-- `RAGService._handle_request` from `rag_service.py`.  `collection` is
`none` when no RAG database was loaded; otherwise it carries the store's
query result for the request's prompt.  `gen` is the outcome of the
external generation call `llm(prompt, ...)`; a raised exception is caught
by the handler's `except` block, which returns an empty answer, no sources
and the error text. -/
def handleRequest (collection : Option QueryData)
    (gen : Except String String) (prompt : String) : RAGQueryResponse :=
  match collection with
  | none => { answer := "", sources := [], error := some "No RAG database loaded" }
  | some qd =>
    let context := String.intercalate "\n\n"
      ((qd.documents.enum).map (fun p =>
        "Document " ++ Nat.repr (p.1 + 1) ++ ":\n" ++ p.2))
    let fullPrompt :=
      "Answer the following question based only on the provided context:\n\nQuestion: "
        ++ prompt ++ "\n\nContext:\n" ++ context ++ "\n\nAnswer:"
    match gen with
    | .error e => { answer := "", sources := [], error := some e }
    | .ok answer =>
      { answer := answer
        sources := mkSources qd.documents qd.metadatas qd.ids qd.distances
        error := none }

/-- A node retrieved by the external `VectorIndexRetriever` in
`RAGSystem.query`: chunk text plus optional source metadata. -/
structure RetrievedNode where
  text : String
  source : Option String
deriving DecidableEq

/-- `RAGSystem.query` from `rag_system.py`: with no index loaded it raises
`ValueError` immediately; otherwise it retrieves nodes (external call,
passed as `nodes`), assembles the context and source list, calls the LLM
(external call, passed as `llm`) and appends the deduplicated sources. -/
def ragSystemQuery (index : Option Unit) (nodes : List RetrievedNode)
    (llm : String → String) (queryText : String) : Except String String :=
  match index with
  | none => .error "No index available. Please index documents first."
  | some _ =>
    let contextStr := String.intercalate "\n\n" (nodes.map (·.text))
    let sourceDocs := (nodes.filterMap (·.source)).foldl
      (fun acc s => if s ∈ acc then acc else acc ++ [s]) []
    let prompt := "Context:\n" ++ contextStr ++ "\n\nQuestion: " ++ queryText
    let response := llm prompt
    let finalResponse :=
      if sourceDocs ≠ [] then
        response ++ "\n\nSource Documents:\n" ++ String.join
          ((sourceDocs.enum).map (fun p =>
            Nat.repr (p.1 + 1) ++ ". " ++ p.2 ++ "\n"))
      else response
    .ok finalResponse

/-- `query_ollama(prompt)` from `main.py`: returns the generation output, or
`None` when the request raised an error (the function catches the exception
and returns `None`).  `ollamaResp` is the outcome of the external call. -/
def queryOllamaResult (ollamaResp : Option String) : Option String :=
  ollamaResp

/-- `query_rag(collection, query)` from `main.py`: retrieves context, calls
`query_ollama`, and when generation failed returns a fixed apology sentence
as the answer (there is no error field in this code path). -/
def queryRag (qd : QueryData) (ollamaResp : Option String)
    (query : String) : String :=
  let context := String.join
    ((qd.documents.zip qd.metadatas).map (fun p =>
      "Document: " ++ p.2 ++ "\nContent: " ++ p.1 ++ "\n"))
  let prompt := "Context:\n" ++ context ++ "\n\nQuestion: " ++ query
  match queryOllamaResult ollamaResp with
  | some r => r
  | none =>
    "I\x27m sorry, I encountered an error while processing your question. Please try again."

/-- The error raised by chromadb's `get_collection` when the collection is
absent, as observed by `setup_rag` (the substring it matches on). -/
def chromaGetCollection (cols : List String) (name : String) :
    Except String String :=
  if name ∈ cols then .ok name
  else .error ("Collection [" ++ name ++ "] does not exists.")

/-- The `except` branch of `setup_rag` (`main.py` lines 227-235,
`RAGBuilder.setup_rag`): if the error's text contains
`"Collection [documents] does not exists"` a new collection is created,
otherwise the exception is re-raised. -/
def handleGetError (cols : List String) (e : String) :
    Except String (String × List String) :=
  if pyIn "Collection [documents] does not exists".data e.data then
    .ok ("documents", cols ++ ["documents"])
  else .error e

/-- `setup_rag` from `main.py` / `RAGBuilder.setup_rag`: try
`get_collection("documents")`; on failure, string-match the error text to
decide between creating the collection and re-raising.  Returns the
collection name and the updated set of collections. -/
def setupRag (cols : List String) : Except String (String × List String) :=
  match chromaGetCollection cols "documents" with
  | .ok c => .ok (c, cols)
  | .error e => handleGetError cols e

/-- A record inserted by `RAGBuilder.process_documents`: the whole text of
one PDF under id `file_path`. -/
structure BuilderEntry where
  id : String
  document : String
  source : String
deriving DecidableEq

/-- `RAGBuilder.process_documents` from `rag_builder.py`: each PDF's full
text is added as a single record with `ids=[file_path]`; the try/except is
per file, so a failure (reading, embedding or inserting) skips that file
and the loop continues with the next one.  `failPaths` lists the files
whose processing raises. -/
def processDocumentsRB (failPaths : List String)
    (files : List (String × String)) : List BuilderEntry :=
  files.foldl (fun st f =>
    if f.1 ∈ failPaths then st
    else st ++ [{ id := f.1, document := f.2, source := f.1 }]) []

/-- `chunks = [text[i:i+1000] for i in range(0, len(text), 1000)]` from
`process_documents` in `main.py`. -/
def sliceChunks (t : List Char) : List (List Char) :=
  (List.range ((t.length + 999) / 1000)).map
    (fun k => (t.drop (1000 * k)).take 1000)

/-- A record inserted by `process_documents` in `main.py`:
`ids=[f"{file_path}_{i}"]`. -/
structure MainEntry where
  id : String
  document : String
  source : String
  chunk : Nat
deriving DecidableEq

/-- The chunk loop of `process_documents` in `main.py` for one file.  The
try/except wraps the whole file, so a failing `collection.add` aborts the
remaining chunks of that file (records added before the failure stay in the
store) while later files are still processed. -/
def addChunksMain (failIds : List String) (path : String) :
    List MainEntry → List (Nat × List Char) → List MainEntry
  | st, [] => st
  | st, (i, c) :: rest =>
    if pyStrip c ≠ [] then
      let id := path ++ "_" ++ Nat.repr i
      if id ∈ failIds then st
      else addChunksMain failIds path
        (st ++ [{ id := id, document := ⟨c⟩, source := path, chunk := i }]) rest
    else addChunksMain failIds path st rest

/-- `process_documents(collection)` from `main.py`: for each PDF, slice the
text into 1000-character chunks and add the non-empty ones under ids
`f"{file_path}_{i}"`; a failure inside one file is caught and the loop
continues with the next file. -/
def processDocumentsMain (failIds : List String)
    (files : List (String × String)) : List MainEntry :=
  files.foldl (fun st f =>
    addChunksMain failIds f.1 st ((sliceChunks f.2.data).enum)) []

/-- Decimal parse of a digit string (used to invert `Nat.repr`). -/
def ofRepr (l : List Char) : Nat :=
  l.foldl (fun a c => 10 * a + (c.toNat - 48)) 0

/-!  Lemmas about `Nat.repr`: its digits never contain an underscore, and it
is injective.  Both are needed for the chunk-id uniqueness argument. -/

theorem digitChar_ne_underscore : ∀ m, m < 10 → Nat.digitChar m ≠ '_' := by
  decide

theorem toDigitsCore_no_underscore :
    ∀ (f n : Nat) (ds : List Char), '_' ∉ ds → '_' ∉ Nat.toDigitsCore 10 f n ds := by
  intro f
  induction f with
  | zero => intro n ds h; simpa [Nat.toDigitsCore] using h
  | succ f ih =>
    intro n ds h
    have hmem : '_' ∉ Nat.digitChar (n % 10) :: ds := by
      intro hc
      rcases List.mem_cons.mp hc with hc | hc
      · exact digitChar_ne_underscore (n % 10) (Nat.mod_lt n (by norm_num)) hc.symm
      · exact h hc
    simp only [Nat.toDigitsCore]
    by_cases hd : n / 10 = 0
    · simpa [hd] using hmem
    · simpa [hd] using ih (n / 10) (Nat.digitChar (n % 10) :: ds) hmem

theorem toDigitsCore_append :
    ∀ (f n : Nat) (ds : List Char),
      Nat.toDigitsCore 10 f n ds = Nat.toDigitsCore 10 f n [] ++ ds := by
  intro f
  induction f with
  | zero => intro n ds; simp [Nat.toDigitsCore]
  | succ f ih =>
    intro n ds
    simp only [Nat.toDigitsCore]
    by_cases hd : n / 10 = 0
    · simp [hd]
    · simp only [hd, if_false]
      rw [ih (n / 10) (Nat.digitChar (n % 10) :: ds),
        ih (n / 10) [Nat.digitChar (n % 10)]]
      simp

theorem toDigitsCore_fuel :
    ∀ (n f₁ f₂ : Nat) (ds : List Char), n < f₁ → n < f₂ →
      Nat.toDigitsCore 10 f₁ n ds = Nat.toDigitsCore 10 f₂ n ds := by
  intro n
  induction n using Nat.strong_induction_on with
  | _ n ih =>
    intro f₁ f₂ ds h₁ h₂
    cases f₁ with
    | zero => omega
    | succ a =>
      cases f₂ with
      | zero => omega
      | succ b =>
        simp only [Nat.toDigitsCore]
        by_cases hd : n / 10 = 0
        · simp [hd]
        · simp only [hd, if_false]
          have hn : 0 < n := by
            rcases Nat.eq_zero_or_pos n with h | h
            · subst h; simp at hd
            · exact h
          have hlt : n / 10 < n := Nat.div_lt_self hn (by norm_num)
          exact ih (n / 10) hlt a b _ (by omega) (by omega)

theorem toDigits_unfold (n : Nat) :
    Nat.toDigits 10 n =
      if n < 10 then [Nat.digitChar n]
      else Nat.toDigits 10 (n / 10) ++ [Nat.digitChar (n % 10)] := by
  rw [Nat.toDigits]
  by_cases h10 : n < 10
  · have hd : n / 10 = 0 := Nat.div_eq_of_lt h10
    have hm : n % 10 = n := Nat.mod_eq_of_lt h10
    simp [Nat.toDigitsCore, hd, hm, h10]
  · have hd : n / 10 ≠ 0 := by
      intro h
      exact h10 ((Nat.div_eq_zero_iff (by norm_num)).mp h)
    have hn : 0 < n := by omega
    have hlt : n / 10 < n := Nat.div_lt_self hn (by norm_num)
    simp only [Nat.toDigitsCore, hd, if_false, h10]
    rw [toDigitsCore_append n (n / 10) [Nat.digitChar (n % 10)], Nat.toDigits]
    rw [toDigitsCore_fuel (n / 10) n (n / 10 + 1) [] hlt (by omega)]

theorem ofRepr_digitChar : ∀ m, m < 10 → (Nat.digitChar m).toNat - 48 = m := by
  decide

theorem ofRepr_toDigits : ∀ n, ofRepr (Nat.toDigits 10 n) = n := by
  intro n
  induction n using Nat.strong_induction_on with
  | _ n ih =>
    rw [toDigits_unfold]
    by_cases h10 : n < 10
    · simp [h10, ofRepr, ofRepr_digitChar n h10]
    · simp only [h10, if_false]
      have hn : 0 < n := by omega
      have hlt : n / 10 < n := Nat.div_lt_self hn (by norm_num)
      have hih := ih (n / 10) hlt
      rw [ofRepr] at hih ⊢
      rw [List.foldl_append, hih]
      simp only [List.foldl_cons, List.foldl_nil]
      rw [ofRepr_digitChar (n % 10) (Nat.mod_lt n (by norm_num))]
      omega

theorem repr_data (n : Nat) : (Nat.repr n).data = Nat.toDigits 10 n := rfl

theorem repr_no_underscore (n : Nat) : '_' ∉ (Nat.repr n).data := by
  rw [repr_data, Nat.toDigits]
  exact toDigitsCore_no_underscore _ _ _ (by simp)

theorem repr_data_injective {n m : Nat}
    (h : (Nat.repr n).data = (Nat.repr m).data) : n = m := by
  rw [repr_data, repr_data] at h
  rw [← ofRepr_toDigits n, ← ofRepr_toDigits m, h]

theorem split_first :
    ∀ (a b x y : List Char), '_' ∉ a → '_' ∉ b →
      a ++ '_' :: x = b ++ '_' :: y → a = b ∧ x = y := by
  intro a
  induction a with
  | nil =>
    intro b x y _ hb h
    cases b with
    | nil => simpa using h
    | cons c bs =>
      simp only [List.nil_append, List.cons_append, List.cons.injEq] at h
      exact absurd (h.1 ▸ List.mem_cons_self c bs) hb
  | cons c as ih =>
    intro b x y ha hb h
    cases b with
    | nil =>
      simp only [List.nil_append, List.cons_append, List.cons.injEq] at h
      exact absurd (h.1 ▸ List.mem_cons_self c as) ha
    | cons d bs =>
      simp only [List.cons_append, List.cons.injEq] at h
      have := ih bs x y (fun hm => ha (List.mem_cons_of_mem c hm))
        (fun hm => hb (List.mem_cons_of_mem d hm)) h.2
      exact ⟨by rw [h.1, this.1], this.2⟩

theorem split_last (p q s t : List Char) (hs : '_' ∉ s) (ht : '_' ∉ t)
    (h : p ++ '_' :: s = q ++ '_' :: t) : p = q ∧ s = t := by
  have h' := congrArg List.reverse h
  simp only [List.reverse_append, List.reverse_cons, List.append_assoc,
    List.singleton_append] at h'
  have hsplit := split_first s.reverse t.reverse p.reverse q.reverse
    (by simpa using hs) (by simpa using ht) h'
  exact ⟨List.reverse_injective hsplit.2, List.reverse_injective hsplit.1⟩

theorem mkChunkId_data (b : String) (i j : Nat) :
    (mkChunkId b i j).data =
      ((basename b).data ++ '_' :: (Nat.repr i).data) ++ '_' :: (Nat.repr j).data := by
  simp [mkChunkId, String.data_append, List.append_assoc]

theorem mkChunkId_inj {b₁ b₂ : String} {i₁ j₁ i₂ j₂ : Nat}
    (h : mkChunkId b₁ i₁ j₁ = mkChunkId b₂ i₂ j₂) : i₁ = i₂ ∧ j₁ = j₂ := by
  have hd := congrArg String.data h
  rw [mkChunkId_data, mkChunkId_data] at hd
  have houter := split_last _ _ _ _ (repr_no_underscore j₁) (repr_no_underscore j₂) hd
  have hinner := split_last _ _ _ _ (repr_no_underscore i₁) (repr_no_underscore i₂) houter.1
  exact ⟨repr_data_injective hinner.2, repr_data_injective houter.2⟩

/-!  Invariants of the build loop of `build_rag_database`. -/

theorem foldl_inv {α β : Type _} (f : β → α → β) (P : β → Prop)
    (hf : ∀ b a, P b → P (f b a)) :
    ∀ (l : List α) (b : β), P b → P (l.foldl f b) := by
  intro l
  induction l with
  | nil => intro b h; exact h
  | cons a t ih => intro b h; exact ih (f b a) (hf b a h)

theorem addChunkStep_store_totalChunks (src : String) (i : Nat)
    (page : Option Nat) (st : BuildState) (jc : Nat × String)
    (h : st.totalChunks = st.store.length) :
    (addChunkStep src i page st jc).totalChunks =
      (addChunkStep src i page st jc).store.length := by
  unfold addChunkStep
  split
  · simp [h]
  · exact h

theorem processDocStep_before_chunks (splitter : String → List String)
    (st : BuildState) (idoc : Nat × Doc) :
    ∃ m, processDocStep splitter st idoc =
      ((splitter idoc.2.pageContent).enum).foldl
        (addChunkStep (sourceFile idoc.1 idoc.2) idoc.1 idoc.2.page)
        { st with docMeta := m } := by
  obtain ⟨i, d⟩ := idoc
  unfold processDocStep
  dsimp only
  cases d.page <;> exact ⟨_, rfl⟩

theorem processDocStep_store_totalChunks (splitter : String → List String)
    (st : BuildState) (idoc : Nat × Doc)
    (h : st.totalChunks = st.store.length) :
    (processDocStep splitter st idoc).totalChunks =
      (processDocStep splitter st idoc).store.length := by
  obtain ⟨m, hm⟩ := processDocStep_before_chunks splitter st idoc
  rw [hm]
  exact foldl_inv (addChunkStep (sourceFile idoc.1 idoc.2) idoc.1 idoc.2.page)
    (fun b => b.totalChunks = b.store.length)
    (addChunkStep_store_totalChunks (sourceFile idoc.1 idoc.2) idoc.1 idoc.2.page)
    _ _ h

/-- C1: after every successful build, the recorded chunk count equals the
number of ids actually present in the store — in `build_rag_database`
(`app1.py`), in `RAGSystem.index_documents` (`rag_system.py`, whose count is
read back from the collection in both branches), and in the fallible-build
model whenever the build succeeds; the count is never estimated from the
input. -/
theorem c1_chunk_count_matches_store :
    (∀ (splitter : String → List String) (docs : List Doc) (cn t : String),
      (buildRagDatabase splitter docs cn t).2.chunkCount =
        (buildRagDatabase splitter docs cn t).1.length) ∧
    (∀ (chunker : List Doc → List String) (fs : VectorStoreFS)
        (docs : List Doc) (force : Bool),
      (indexDocuments chunker fs docs force).1 =
        (indexDocuments chunker fs docs force).2.storeIds.length) ∧
    (∀ (failIds : List String) (splitter : String → List String)
        (docs : List Doc) (cn t : String) (r : List StoreEntry × BuildMeta),
      buildRagDatabaseF failIds splitter docs cn t = .ok r →
      r.2.chunkCount = r.1.length) := by
  refine ⟨?_, ?_, ?_⟩
  · intro splitter docs cn t
    unfold buildRagDatabase
    dsimp only
    exact foldl_inv (processDocStep splitter)
      (fun b => b.totalChunks = b.store.length)
      (processDocStep_store_totalChunks splitter) _ _ rfl
  · intro chunker fs docs force
    unfold indexDocuments
    split <;> rfl
  · intro failIds splitter docs cn t r hok
    have main : ∀ (l : List (Nat × Doc)) (st st' : BuildState),
        st.totalChunks = st.store.length →
        l.foldlM (processDocStepF failIds splitter) st = .ok st' →
        st'.totalChunks = st'.store.length := by
      intro l
      induction l with
      | nil =>
        intro st st' h hok
        simp only [List.foldlM, pure, Except.pure] at hok
        cases hok
        exact h
      | cons a tl ih =>
        intro st st' h hok
        simp only [List.foldlM] at hok
        cases hstep : processDocStepF failIds splitter st a with
        | error e =>
          rw [hstep] at hok
          simp only [Bind.bind, Except.bind] at hok
          exact Except.noConfusion hok
        | ok st1 =>
          rw [hstep] at hok
          simp only [Bind.bind, Except.bind] at hok
          refine ih st1 st' ?_ hok
          have inner : ∀ (page : Option Nat) (cl : List (Nat × String)) (b b' : BuildState),
              b.totalChunks = b.store.length →
              cl.foldlM (addChunkStepF failIds (sourceFile a.1 a.2) a.1 page) b = .ok b' →
              b'.totalChunks = b'.store.length := by
            intro page cl
            induction cl with
            | nil =>
              intro b b' hb hok2
              simp only [List.foldlM, pure, Except.pure] at hok2
              cases hok2
              exact hb
            | cons c ctl cih =>
              intro b b' hb hok2
              simp only [List.foldlM] at hok2
              cases hcs : addChunkStepF failIds (sourceFile a.1 a.2) a.1 page b c with
              | error e =>
                rw [hcs] at hok2
                simp only [Bind.bind, Except.bind] at hok2
                exact Except.noConfusion hok2
              | ok b1 =>
                rw [hcs] at hok2
                simp only [Bind.bind, Except.bind] at hok2
                refine cih b1 b' ?_ hok2
                unfold addChunkStepF at hcs
                by_cases hstrip : pyStrip c.2.data ≠ []
                · rw [if_pos hstrip] at hcs
                  by_cases hfail : mkChunkId (sourceFile a.1 a.2) a.1 c.1 ∈ failIds
                  · rw [if_pos hfail] at hcs; cases hcs
                  · rw [if_neg hfail] at hcs
                    cases hcs
                    simp [hb]
                · rw [if_neg hstrip] at hcs
                  cases hcs
                  exact hb
          unfold processDocStepF at hstep
          dsimp only at hstep
          cases hpage : a.2.page <;> rw [hpage] at hstep <;>
            · refine inner _ _ _ _ ?_ hstep
              exact h
    unfold buildRagDatabaseF at hok
    simp only [bind, Except.bind] at hok
    cases hfold : (docs.enum).foldlM (processDocStepF failIds splitter) ⟨[], 0, []⟩ with
    | error e => rw [hfold] at hok; simp at hok
    | ok final =>
      rw [hfold] at hok
      simp only [pure, Except.pure, Except.ok.injEq] at hok
      have := main _ _ _ rfl hfold
      rw [← hok]
      exact this

/-- C2: when the output path exists and `force_reindex` is false,
`RAGSystem.index_documents` opens the existing collection and returns its
current chunk count with the store left unchanged; consequently two
successive builds with `force=false` over the same documents return
identical chunk counts. -/
theorem c2_reuse_idempotent (chunker : List Doc → List String)
    (fs : VectorStoreFS) (docs : List Doc) :
    (fs.pathExists = true →
      indexDocuments chunker fs docs false = (fs.storeIds.length, fs)) ∧
    (indexDocuments chunker (indexDocuments chunker fs docs false).2 docs false).1 =
      (indexDocuments chunker fs docs false).1 := by
  constructor
  · intro h
    unfold indexDocuments
    simp [h]
  · unfold indexDocuments
    cases h : fs.pathExists <;> simp [h]

theorem c2_witness :
    indexDocuments (fun _ => ["id1", "id2"]) ⟨true, ["id1", "id2", "id3"]⟩ [] false =
      (3, ⟨true, ["id1", "id2", "id3"]⟩) :=
  (c2_reuse_idempotent (fun _ => ["id1", "id2"]) ⟨true, ["id1", "id2", "id3"]⟩ []).1 rfl


/-- C7: a query issued when no collection/index is loaded fails immediately
with an explicit error — `RAGService._handle_request` returns a response
with the error field set (and empty answer, before any retrieval or
generation is attempted) and `RAGSystem.query` raises — never a successful
empty answer. -/
theorem c7_not_initialized (gen : Except String String) (prompt : String)
    (nodes : List RetrievedNode) (llm : String → String) (q : String) :
    handleRequest none gen prompt =
      { answer := "", sources := [], error := some "No RAG database loaded" } ∧
    ragSystemQuery none nodes llm q =
      .error "No index available. Please index documents first." :=
  ⟨rfl, rfl⟩

/-- C6 counterexample: in `query_rag` from `main.py`, when the generation
call fails (`query_ollama` returns `None`), the returned answer is a fixed
non-empty apology sentence, not an empty answer with an error field. -/
theorem c6_counterexample :
    queryRag ⟨["chunk text"], ["doc.pdf"], ["doc.pdf_0"], none⟩ none "What?" =
      "I\x27m sorry, I encountered an error while processing your question. Please try again." ∧
    queryRag ⟨["chunk text"], ["doc.pdf"], ["doc.pdf_0"], none⟩ none "What?" ≠ "" :=
  ⟨rfl, by decide⟩

/-- C6 (amended): in `RAGService._handle_request` a generation failure is
surfaced with the error field set to the failure text and the answer empty
(no fabricated text); but `query_rag` in `main.py` instead returns a fixed
apology sentence as the answer, with no error field. -/
theorem c6_generation_error (qd : QueryData) (e : String) (prompt : String) :
    handleRequest (some qd) (.error e) prompt =
      { answer := "", sources := [], error := some e } :=
  rfl

/-- C5 counterexample: requesting the absent `documents` collection does not
fail with a structured NotFound condition — `setup_rag` silently creates the
collection instead; and the creation decision is taken purely by matching
the error text, so an unrelated failure whose message happens to contain the
matched phrase is also treated as absence. -/
theorem c5_counterexample :
    setupRag [] = .ok ("documents", ["documents"]) ∧
    handleGetError []
      "disk read failed while compacting segment; Collection [documents] does not exists in cache" =
      .ok ("documents", ["documents"]) :=
  ⟨rfl, rfl⟩

/-- C5 (amended): when the requested collection does not exist,
`get_collection` raises an exception and `setup_rag` decides absence by
checking whether the error text contains
`"Collection [documents] does not exists"`; on a match it creates the
collection (no NotFound reaches the caller), otherwise it re-raises. -/
theorem c5_string_matched_absence (cols : List String)
    (h : "documents" ∉ cols) :
    setupRag cols = .ok ("documents", cols ++ ["documents"]) ∧
    (∀ e : String,
      pyIn "Collection [documents] does not exists".data e.data = true →
      handleGetError cols e = .ok ("documents", cols ++ ["documents"])) ∧
    (∀ e : String,
      pyIn "Collection [documents] does not exists".data e.data = false →
      handleGetError cols e = .error e) := by
  have hmatch : pyIn "Collection [documents] does not exists".data
      ("Collection [" ++ "documents" ++ "] does not exists.").data = true := by decide
  refine ⟨?_, ?_, ?_⟩
  · unfold setupRag chromaGetCollection
    rw [if_neg h]
    unfold handleGetError
    dsimp only
    rw [if_pos hmatch]
  · intro e he
    unfold handleGetError
    rw [if_pos he]
  · intro e he
    unfold handleGetError
    rw [if_neg (by rw [he]; exact Bool.false_ne_true)]

theorem c5_witness :
    setupRag ["other"] = .ok ("documents", ["other", "documents"]) :=
  (c5_string_matched_absence ["other"] (by decide)).1

/-- C4 counterexample: in `build_rag_database` (`app1.py`) there is no
per-chunk error handling: with a 1500-character document producing two
chunks, a failure inserting the first chunk aborts the whole build with an
error — the remaining chunk of the same document is not processed and no
counts are produced — instead of skipping just that chunk. -/
theorem c4_counterexample :
    (splitText 1000 200 (List.replicate 1500 'a')).length = 2 ∧
    buildRagDatabaseF ["a.pdf_0_0"] defaultSplitter
      [⟨⟨List.replicate 1500 'a'⟩, some "a.pdf", none⟩] "documents" "t" =
      .error "add failed for id a.pdf_0_0" :=
  ⟨by decide, rfl⟩

/-- C4 (amended): failure isolation in this repository is per document, not
per chunk: in `RAGBuilder.process_documents` each document is one insertion
and a failure skips exactly that document while every remaining document is
still processed (the store holds exactly the successful insertions); in
`build_rag_database` (`app1.py`) a single failing chunk insertion aborts the
entire build. -/
theorem c4_per_document_isolation (failPaths : List String)
    (files : List (String × String)) :
    processDocumentsRB failPaths files =
      (files.filter (fun f => decide (f.1 ∉ failPaths))).map
        (fun f => { id := f.1, document := f.2, source := f.1 }) := by
  have main : ∀ (fl : List (String × String)) (acc : List BuilderEntry),
      fl.foldl (fun st f => if f.1 ∈ failPaths then st
        else st ++ [{ id := f.1, document := f.2, source := f.1 }]) acc =
      acc ++ (fl.filter (fun f => decide (f.1 ∉ failPaths))).map
        (fun f => { id := f.1, document := f.2, source := f.1 }) := by
    intro fl
    induction fl with
    | nil => intro acc; simp
    | cons f t ih =>
      intro acc
      simp only [List.foldl_cons, List.filter_cons]
      by_cases hf : f.1 ∈ failPaths
      · rw [if_pos hf]
        have hd : decide (f.1 ∉ failPaths) = false := by simp [hf]
        rw [hd]
        simp only [Bool.false_eq_true, if_false]
        exact ih acc
      · rw [if_neg hf]
        have hd : decide (f.1 ∉ failPaths) = true := by simp [hf]
        rw [hd]
        simp only [if_true, List.map_cons]
        rw [ih]
        simp
  unfold processDocumentsRB
  rw [main files []]
  simp


/-!  C3: the relevance score of `RAGService._handle_request`. -/

theorem foldl_max_le (xs : List ℚ) : ∀ a : ℚ, a ≤ xs.foldl max a := by
  induction xs with
  | nil => intro a; exact le_refl a
  | cons y ys ih =>
    intro a
    exact le_trans (le_max_left a y) (ih (max a y))

theorem mem_le_foldl_max (xs : List ℚ) :
    ∀ (a x : ℚ), x ∈ xs → x ≤ xs.foldl max a := by
  induction xs with
  | nil => intro a x hx; cases hx
  | cons y ys ih =>
    intro a x hx
    rcases List.mem_cons.mp hx with h | h
    · subst h
      exact le_trans (le_max_right a x) (foldl_max_le ys (max a x))
    · exact ih (max a y) x h

theorem le_pyMax {l : List ℚ} {x : ℚ} (hx : x ∈ l) : x ≤ pyMax l := by
  cases l with
  | nil => cases hx
  | cons d ds =>
    rcases List.mem_cons.mp hx with h | h
    · subst h; exact foldl_max_le ds x
    · exact mem_le_foldl_max ds d x h

theorem relevanceOf_antitone (ds : List ℚ) {a b : ℚ} (hab : a ≤ b) :
    relevanceOf ds b ≤ relevanceOf ds a := by
  unfold relevanceOf
  by_cases hm : 0 < pyMax ds
  · rw [if_pos hm, if_pos hm]
    have := (div_le_div_iff_of_pos_right hm).mpr hab
    linarith
  · rw [if_neg hm, if_neg hm]

theorem mkSources_length (documents metadatas ids : List String)
    (dist : Option (List ℚ))
    (h1 : documents.length = ids.length)
    (h2 : metadatas.length = documents.length) :
    (mkSources documents metadatas ids dist).length = ids.length := by
  simp only [mkSources, List.length_map, List.enum_length, List.length_zip]
  omega

/-- C3: for every non-empty ascending distance list attached by the query
handler, the relevance of result i is `1 - d_i / max(d)` when `max(d) > 0`
and `1` when `max(d) = 0`; the relevance sequence carried by the sources is
exactly the image of the distances under that formula, it is monotonically
non-increasing across the ranked sequence, and the ranked id order is the
store\x27s order, unaltered by relevance. -/
theorem c3_relevance_scores (documents metadatas ids : List String)
    (ds : List ℚ)
    (h1 : documents.length = ids.length)
    (h2 : metadatas.length = documents.length)
    (h3 : ds.length = ids.length)
    (hne : ds ≠ [])
    (hsort : ds.Sorted (· ≤ ·)) :
    (∀ d ∈ ds, (0 < pyMax ds → relevanceOf ds d = 1 - d / pyMax ds) ∧
      (pyMax ds = 0 → relevanceOf ds d = 1)) ∧
    (mkSources documents metadatas ids (some ds)).map (·.relevance) =
      ds.map (fun d => some (relevanceOf ds d)) ∧
    ((mkSources documents metadatas ids (some ds)).map
        (fun s => s.relevance.getD 0)).Sorted (· ≥ ·) ∧
    (mkSources documents metadatas ids (some ds)).map (·.id) = ids := by
  have hemp : ds.isEmpty = false := by
    cases ds with
    | nil => exact absurd rfl hne
    | cons a l => rfl
  have hrel : (mkSources documents metadatas ids (some ds)).map (·.relevance) =
      ds.map (fun d => some (relevanceOf ds d)) := by
    apply List.ext_getElem
    · simp only [List.length_map]
      rw [mkSources_length documents metadatas ids (some ds) h1 h2]
      omega
    · intro k hk1 hk2
      have hkd : k < ds.length := by simpa using hk2
      have hki : k < ids.length := by omega
      have hkdoc : k < documents.length := by omega
      have hkm : k < metadatas.length := by omega
      simp only [mkSources, List.getElem_map, List.getElem_enum, List.getElem_zip,
        hemp, Bool.false_eq_true, if_false]
      rw [List.getD_eq_getElem ds 0 hkd]
  have hids : (mkSources documents metadatas ids (some ds)).map (·.id) = ids := by
    apply List.ext_getElem
    · simp only [List.length_map]
      exact mkSources_length documents metadatas ids (some ds) h1 h2
    · intro k hk1 hk2
      simp only [mkSources, List.getElem_map, List.getElem_enum, List.getElem_zip]
  refine ⟨?_, hrel, ?_, hids⟩
  · intro d hd
    constructor
    · intro hpos
      unfold relevanceOf
      rw [if_pos hpos]
    · intro hz
      unfold relevanceOf
      rw [if_neg (by rw [hz]; exact lt_irrefl 0)]
  · have hmap : (mkSources documents metadatas ids (some ds)).map
        (fun s => s.relevance.getD 0) =
        ds.map (fun d => relevanceOf ds d) := by
      have : (fun s : RespSource => s.relevance.getD 0) =
          (fun o : Option ℚ => o.getD 0) ∘ (fun s : RespSource => s.relevance) := rfl
      rw [this, ← List.map_map, hrel, List.map_map]
      rfl
    rw [hmap]
    rw [List.Sorted, List.pairwise_map]
    exact hsort.imp (fun hab => relevanceOf_antitone ds hab)

theorem c3_witness :
    (mkSources ["da", "db"] ["ma", "mb"] ["ia", "ib"]
        (some [(1 : ℚ)/2, 1])).map (·.id) = ["ia", "ib"] :=
  (c3_relevance_scores ["da", "db"] ["ma", "mb"] ["ia", "ib"] [(1 : ℚ)/2, 1]
    rfl rfl rfl (by decide)
    (by simp [List.sorted_cons]; norm_num)).2.2.2


/-- C9: the concrete scenario from the spec, with the chunker modelled from
the spec (`splitText` with chunkSize 1000, overlap 200): a 1500-character
document yields chunks of sizes 1000 and 700 whose second chunk begins with
the 200 trailing characters of the first, a 300-character document yields a
single chunk, and the build records `chunk_count = 3` with a two-entry
per-document map holding 2 and 1 chunks respectively. -/
theorem c9_concrete_scenario :
    (splitText 1000 200 (List.replicate 1500 'a')).map List.length = [1000, 700] ∧
    ((splitText 1000 200 (List.replicate 1500 'a')).getD 1 []).take 200 =
      ((splitText 1000 200 (List.replicate 1500 'a')).getD 0 []).drop 800 ∧
    splitText 1000 200 (List.replicate 300 'b') = [List.replicate 300 'b'] ∧
    (buildRagDatabase defaultSplitter
      [⟨⟨List.replicate 1500 'a'⟩, some "doc1.txt", none⟩,
       ⟨⟨List.replicate 300 'b'⟩, some "doc2.txt", none⟩]
      "documents" "2025-01-01 00:00:00").2.chunkCount = 3 ∧
    (buildRagDatabase defaultSplitter
      [⟨⟨List.replicate 1500 'a'⟩, some "doc1.txt", none⟩,
       ⟨⟨List.replicate 300 'b'⟩, some "doc2.txt", none⟩]
      "documents" "2025-01-01 00:00:00").2.documents.map
        (fun p => (p.1, p.2.chunks)) =
      [("doc1.txt", 2), ("doc2.txt", 1)] ∧
    (buildRagDatabase defaultSplitter
      [⟨⟨List.replicate 1500 'a'⟩, some "doc1.txt", none⟩,
       ⟨⟨List.replicate 300 'b'⟩, some "doc2.txt", none⟩]
      "documents" "2025-01-01 00:00:00").2.documentCount = 2 := by
  refine ⟨by decide, by decide, by decide, by decide, by decide, by decide⟩


/-!  C10: keys of the per-document metadata map. -/

theorem modifyEntry_keys (m : List (String × DocStats)) (src : String)
    (f : DocStats → DocStats) :
    (modifyEntry m src f).map Prod.fst = m.map Prod.fst := by
  unfold modifyEntry
  rw [List.map_map]
  apply List.map_congr_left
  intro p _
  simp only [Function.comp_apply]
  split <;> rfl

theorem any_key_iff (m : List (String × DocStats)) (src : String) :
    (m.any (fun p => p.1 == src) = true) ↔ src ∈ m.map Prod.fst := by
  rw [List.any_eq_true]
  constructor
  · rintro ⟨p, hp, hpe⟩
    exact List.mem_map.mpr ⟨p, hp, beq_iff_eq.mp hpe⟩
  · intro h
    rcases List.mem_map.mp h with ⟨p, hp, he⟩
    exact ⟨p, hp, beq_iff_eq.mpr he⟩

theorem ensureEntry_keys (m : List (String × DocStats)) (src : String) :
    (ensureEntry m src).map Prod.fst =
      if src ∈ m.map Prod.fst then m.map Prod.fst
      else m.map Prod.fst ++ [src] := by
  unfold ensureEntry
  by_cases h : src ∈ m.map Prod.fst
  · rw [if_pos ((any_key_iff m src).mpr h), if_pos h]
  · rw [if_neg (fun hc => h ((any_key_iff m src).mp hc)), if_neg h]
    simp

theorem addChunkStep_keys (src : String) (i : Nat) (page : Option Nat)
    (st : BuildState) (jc : Nat × String) :
    (addChunkStep src i page st jc).docMeta.map Prod.fst =
      st.docMeta.map Prod.fst := by
  unfold addChunkStep
  split
  · dsimp only
    rw [bumpChunks]
    exact modifyEntry_keys st.docMeta src _
  · rfl

theorem foldl_addChunkStep_keys (src : String) (i : Nat) (page : Option Nat) :
    ∀ (l : List (Nat × String)) (st : BuildState),
      (l.foldl (addChunkStep src i page) st).docMeta.map Prod.fst =
        st.docMeta.map Prod.fst := by
  intro l
  induction l with
  | nil => intro st; rfl
  | cons c t ih =>
    intro st
    rw [List.foldl_cons, ih, addChunkStep_keys]

theorem processDocStep_keys (splitter : String → List String)
    (st : BuildState) (idoc : Nat × Doc) :
    (processDocStep splitter st idoc).docMeta.map Prod.fst =
      (ensureEntry st.docMeta (sourceFile idoc.1 idoc.2)).map Prod.fst := by
  obtain ⟨i, d⟩ := idoc
  unfold processDocStep
  dsimp only
  cases d.page with
  | none => rw [foldl_addChunkStep_keys]
  | some p =>
    rw [foldl_addChunkStep_keys]
    dsimp only
    rw [addPage]
    exact modifyEntry_keys _ _ _

theorem build_keys (splitter : String → List String) :
    ∀ (l : List (Nat × Doc)) (st : BuildState),
      (l.foldl (processDocStep splitter) st).docMeta.map Prod.fst =
        (l.map (fun p => sourceFile p.1 p.2)).foldl
          (fun ks s => if s ∈ ks then ks else ks ++ [s])
          (st.docMeta.map Prod.fst) := by
  intro l
  induction l with
  | nil => intro st; rfl
  | cons a t ih =>
    intro st
    rw [List.foldl_cons, List.map_cons, List.foldl_cons, ih]
    congr 1
    rw [processDocStep_keys, ensureEntry_keys]

theorem insFold_nodup :
    ∀ (ss ks : List String), ks.Nodup →
      (ss.foldl (fun ks s => if s ∈ ks then ks else ks ++ [s]) ks).Nodup := by
  intro ss
  induction ss with
  | nil => intro ks h; exact h
  | cons s t ih =>
    intro ks h
    rw [List.foldl_cons]
    by_cases hs : s ∈ ks
    · rw [if_pos hs]; exact ih ks h
    · rw [if_neg hs]
      refine ih _ ?_
      rw [List.nodup_append]
      refine ⟨h, List.nodup_singleton s, ?_⟩
      intro a ha hax
      rw [List.mem_singleton] at hax
      exact hs (hax ▸ ha)

theorem insFold_mem :
    ∀ (ss ks : List String) (x : String),
      x ∈ ss.foldl (fun ks s => if s ∈ ks then ks else ks ++ [s]) ks ↔
        x ∈ ks ∨ x ∈ ss := by
  intro ss
  induction ss with
  | nil => intro ks x; simp
  | cons s t ih =>
    intro ks x
    rw [List.foldl_cons]
    by_cases hs : s ∈ ks
    · rw [if_pos hs, ih]
      constructor
      · rintro (h | h)
        · exact Or.inl h
        · exact Or.inr (List.mem_cons_of_mem s h)
      · rintro (h | h)
        · exact Or.inl h
        · rcases List.mem_cons.mp h with h | h
          · exact Or.inl (h ▸ hs)
          · exact Or.inr h
    · rw [if_neg hs, ih]
      simp only [List.mem_append, List.mem_singleton, List.mem_cons]
      tauto

theorem dedup_length_lt_of_not_nodup {l : List String} (h : ¬ l.Nodup) :
    l.dedup.length < l.length := by
  have h1 := List.dedup_sublist l
  have h2 := h1.length_le
  rcases lt_or_eq_of_le h2 with h3 | h3
  · exact h3
  · exact absurd (h1.eq_of_length h3 ▸ l.nodup_dedup) h

/-- C10: `document_count` equals the number of page-level document records
fed to the build (one per PDF page), while the per-document map has exactly
one entry per distinct source path; hence whenever a source appears in more
than one record, `document_count` strictly exceeds the number of map
entries. -/
theorem c10_page_level_document_count (splitter : String → List String)
    (docs : List Doc) (cn t : String) :
    (buildRagDatabase splitter docs cn t).2.documentCount = docs.length ∧
    ((buildRagDatabase splitter docs cn t).2.documents.map Prod.fst).Nodup ∧
    (∀ x, x ∈ (buildRagDatabase splitter docs cn t).2.documents.map Prod.fst ↔
      x ∈ (docs.enum).map (fun p => sourceFile p.1 p.2)) ∧
    (¬ ((docs.enum).map (fun p => sourceFile p.1 p.2)).Nodup →
      (buildRagDatabase splitter docs cn t).2.documents.length <
        (buildRagDatabase splitter docs cn t).2.documentCount) := by
  have hkeys : (buildRagDatabase splitter docs cn t).2.documents.map Prod.fst =
      ((docs.enum).map (fun p => sourceFile p.1 p.2)).foldl
        (fun ks s => if s ∈ ks then ks else ks ++ [s]) [] :=
    build_keys splitter docs.enum ⟨[], 0, []⟩
  have hnodup : ((buildRagDatabase splitter docs cn t).2.documents.map
      Prod.fst).Nodup := by
    rw [hkeys]
    exact insFold_nodup _ [] List.nodup_nil
  have hmem : ∀ x,
      x ∈ (buildRagDatabase splitter docs cn t).2.documents.map Prod.fst ↔
        x ∈ (docs.enum).map (fun p => sourceFile p.1 p.2) := by
    intro x
    rw [hkeys, insFold_mem]
    simp
  refine ⟨rfl, hnodup, hmem, ?_⟩
  intro hdup
  have hdc : (buildRagDatabase splitter docs cn t).2.documentCount =
      docs.length := rfl
  rw [hdc]
  have hklen : (buildRagDatabase splitter docs cn t).2.documents.length =
      ((buildRagDatabase splitter docs cn t).2.documents.map Prod.fst).length := by
    rw [List.length_map]
  have hfin : ((buildRagDatabase splitter docs cn t).2.documents.map
      Prod.fst).toFinset = ((docs.enum).map (fun p => sourceFile p.1 p.2)).toFinset := by
    apply Finset.ext
    intro a
    rw [List.mem_toFinset, List.mem_toFinset]
    exact hmem a
  have hcard : ((buildRagDatabase splitter docs cn t).2.documents.map
      Prod.fst).toFinset.card =
      ((buildRagDatabase splitter docs cn t).2.documents.map Prod.fst).length :=
    List.toFinset_card_of_nodup hnodup
  have hslen : ((docs.enum).map (fun p => sourceFile p.1 p.2)).length =
      docs.length := by
    rw [List.length_map, List.enum_length]
  have hdl := dedup_length_lt_of_not_nodup hdup
  have hdedup : ((docs.enum).map (fun p => sourceFile p.1 p.2)).toFinset.card =
      ((docs.enum).map (fun p => sourceFile p.1 p.2)).dedup.length := rfl
  have hfc : ((buildRagDatabase splitter docs cn t).2.documents.map
      Prod.fst).toFinset.card =
      ((docs.enum).map (fun p => sourceFile p.1 p.2)).toFinset.card := by
    rw [hfin]
  omega

theorem c10_witness :
    (buildRagDatabase defaultSplitter
      [⟨"page one text", some "m.pdf", some 1⟩,
       ⟨"page two text", some "m.pdf", some 2⟩] "documents" "t").2.documents.length <
    (buildRagDatabase defaultSplitter
      [⟨"page one text", some "m.pdf", some 1⟩,
       ⟨"page two text", some "m.pdf", some 2⟩] "documents" "t").2.documentCount :=
  (c10_page_level_document_count defaultSplitter
    [⟨"page one text", some "m.pdf", some 1⟩,
     ⟨"page two text", some "m.pdf", some 2⟩] "documents" "t").2.2.2 (by decide)


/-!  C8: the chunk-id scheme of `build_rag_database`. -/

theorem inner_chunk_invariant (src : String) (i : Nat) (page : Option Nat) :
    ∀ (l : List String) (j : Nat) (st : BuildState),
      (∀ e ∈ st.store,
        e.id = mkChunkId e.metadata.source e.metadata.documentId e.metadata.chunkId) →
      (∀ e ∈ st.store, e.metadata.documentId < i ∨
        (e.metadata.documentId = i ∧ e.metadata.chunkId < j)) →
      (st.store.map (fun e => (e.metadata.documentId, e.metadata.chunkId))).Nodup →
      (∀ e ∈ ((List.enumFrom j l).foldl (addChunkStep src i page) st).store,
        e.id = mkChunkId e.metadata.source e.metadata.documentId e.metadata.chunkId) ∧
      (∀ e ∈ ((List.enumFrom j l).foldl (addChunkStep src i page) st).store,
        e.metadata.documentId < i ∨
        (e.metadata.documentId = i ∧ e.metadata.chunkId < j + l.length)) ∧
      ((((List.enumFrom j l).foldl (addChunkStep src i page) st).store).map
        (fun e => (e.metadata.documentId, e.metadata.chunkId))).Nodup := by
  intro l
  induction l with
  | nil =>
    intro j st hf hb hn
    exact ⟨hf, fun e he => by
      rcases hb e he with h | h
      · exact Or.inl h
      · exact Or.inr ⟨h.1, by omega⟩, hn⟩
  | cons c t ih =>
    intro j st hf hb hn
    rw [List.enumFrom_cons, List.foldl_cons]
    have hstep : ∀ P : BuildState → Prop,
        P st →
        (P { store := st.store ++
              [{ id := mkChunkId src i j, document := c,
                 metadata := { source := src, chunkId := j, documentId := i, page := page } }],
             totalChunks := st.totalChunks + 1,
             docMeta := bumpChunks st.docMeta src }) →
        P (addChunkStep src i page st (j, c)) := by
      intro P hkeep hadd
      unfold addChunkStep
      split
      · exact hadd
      · exact hkeep
    refine hstep (fun b =>
      (∀ e ∈ ((List.enumFrom (j + 1) t).foldl (addChunkStep src i page) b).store,
        e.id = mkChunkId e.metadata.source e.metadata.documentId e.metadata.chunkId) ∧
      (∀ e ∈ ((List.enumFrom (j + 1) t).foldl (addChunkStep src i page) b).store,
        e.metadata.documentId < i ∨
        (e.metadata.documentId = i ∧ e.metadata.chunkId < j + (c :: t).length)) ∧
      ((((List.enumFrom (j + 1) t).foldl (addChunkStep src i page) b).store).map
        (fun e => (e.metadata.documentId, e.metadata.chunkId))).Nodup) ?_ ?_
    · have := ih (j + 1) st hf
        (fun e he => by
          rcases hb e he with h | h
          · exact Or.inl h
          · exact Or.inr ⟨h.1, by omega⟩) hn
      refine ⟨this.1, fun e he => ?_, this.2.2⟩
      rcases this.2.1 e he with h | h
      · exact Or.inl h
      · exact Or.inr ⟨h.1, by simp only [List.length_cons]; omega⟩
    · set newE : StoreEntry :=
        { id := mkChunkId src i j, document := c,
          metadata := { source := src, chunkId := j, documentId := i, page := page } } with hnewE
      have hf2 : ∀ e ∈ st.store ++ [newE],
          e.id = mkChunkId e.metadata.source e.metadata.documentId e.metadata.chunkId := by
        intro e he
        rcases List.mem_append.mp he with h | h
        · exact hf e h
        · rw [List.mem_singleton] at h
          subst h
          rfl
      have hb2 : ∀ e ∈ st.store ++ [newE], e.metadata.documentId < i ∨
          (e.metadata.documentId = i ∧ e.metadata.chunkId < j + 1) := by
        intro e he
        rcases List.mem_append.mp he with h | h
        · rcases hb e h with h2 | h2
          · exact Or.inl h2
          · exact Or.inr ⟨h2.1, by omega⟩
        · rw [List.mem_singleton] at h
          subst h
          exact Or.inr ⟨rfl, Nat.lt_succ_self j⟩
      have hn2 : ((st.store ++ [newE]).map
          (fun e => (e.metadata.documentId, e.metadata.chunkId))).Nodup := by
        rw [List.map_append]
        rw [List.nodup_append]
        refine ⟨hn, List.nodup_singleton _, ?_⟩
        intro a ha hax
        simp only [List.map_cons, List.map_nil, List.mem_singleton] at hax
        rcases List.mem_map.mp ha with ⟨e, he, hkey⟩
        rcases hb e he with h | h
        · rw [← hkey] at hax
          have : e.metadata.documentId = i := congrArg Prod.fst hax
          omega
        · rw [← hkey] at hax
          have h1 : e.metadata.documentId = i := congrArg Prod.fst hax
          have h2 : e.metadata.chunkId = j := congrArg Prod.snd hax
          omega
      have := ih (j + 1)
        { store := st.store ++ [newE],
          totalChunks := st.totalChunks + 1,
          docMeta := bumpChunks st.docMeta src } hf2 hb2 hn2
      refine ⟨this.1, fun e he => ?_, this.2.2⟩
      rcases this.2.1 e he with h | h
      · exact Or.inl h
      · exact Or.inr ⟨h.1, by simp only [List.length_cons]; omega⟩

theorem outer_doc_invariant (splitter : String → List String) :
    ∀ (l : List Doc) (n : Nat) (st : BuildState),
      (∀ e ∈ st.store,
        e.id = mkChunkId e.metadata.source e.metadata.documentId e.metadata.chunkId) →
      (∀ e ∈ st.store, e.metadata.documentId < n) →
      (st.store.map (fun e => (e.metadata.documentId, e.metadata.chunkId))).Nodup →
      (∀ e ∈ ((List.enumFrom n l).foldl (processDocStep splitter) st).store,
        e.id = mkChunkId e.metadata.source e.metadata.documentId e.metadata.chunkId) ∧
      ((((List.enumFrom n l).foldl (processDocStep splitter) st).store).map
        (fun e => (e.metadata.documentId, e.metadata.chunkId))).Nodup := by
  intro l
  induction l with
  | nil =>
    intro n st hf hb hn
    exact ⟨hf, hn⟩
  | cons d t ih =>
    intro n st hf hb hn
    rw [List.enumFrom_cons, List.foldl_cons]
    obtain ⟨m, hm⟩ := processDocStep_before_chunks splitter st (n, d)
    have hinner := inner_chunk_invariant (sourceFile n d) n d.page
      (splitter d.pageContent) 0 { st with docMeta := m }
      (fun e he => hf e he)
      (fun e he => Or.inl (hb e he))
      hn
    rw [hm]
    have hb3 : ∀ e ∈ ((List.enumFrom 0 (splitter d.pageContent)).foldl
        (addChunkStep (sourceFile n d) n d.page) { st with docMeta := m }).store,
        e.metadata.documentId < n + 1 := by
      intro e he
      rcases hinner.2.1 e he with h | h
      · omega
      · omega
    exact ih (n + 1) _ hinner.1 hb3 hinner.2.2

/-- C8 counterexample: `process_documents` in `main.py` inserts chunks under
`f"{file_path}_{i}"`, which does not follow the
`basename(source)_documentIndex_chunkIndex` format claimed for every chunk
inserted during a build: the single chunk of `docs/a.pdf` receives id
`"docs/a.pdf_0"`, not `"a.pdf_0_0"`. -/
theorem c8_counterexample :
    (processDocumentsMain [] [("docs/a.pdf", "hello")]).map (fun e => e.id) =
      ["docs/a.pdf_0"] ∧
    mkChunkId "docs/a.pdf" 0 0 = "a.pdf_0_0" ∧
    ("docs/a.pdf_0" : String) ≠ "a.pdf_0_0" :=
  ⟨by decide, by decide, by decide⟩

/-- C8 (amended): in `build_rag_database` (`app1.py`) every inserted chunk
id equals `basename(source) + "_" + documentIndex + "_" + chunkIndex` and
all ids of one build are pairwise distinct, for every document list
including coinciding basenames or basenames containing underscores; but
`process_documents` in `main.py` uses `f"{file_path}_{chunkIndex}"` (and
`RAGBuilder.process_documents` uses the bare file path) instead. -/
theorem c8_chunk_id_scheme (splitter : String → List String)
    (docs : List Doc) (cn t : String) :
    (∀ e ∈ (buildRagDatabase splitter docs cn t).1,
      e.id = mkChunkId e.metadata.source e.metadata.documentId e.metadata.chunkId) ∧
    ((buildRagDatabase splitter docs cn t).1.map (fun e => e.id)).Nodup := by
  have h := outer_doc_invariant splitter docs 0 ⟨[], 0, []⟩
    (fun e he => by cases he) (fun e he => by cases he) (by simp)
  refine ⟨h.1, ?_⟩
  have hn := h.2
  unfold List.Nodup at hn ⊢
  rw [List.pairwise_map] at hn ⊢
  refine List.Pairwise.imp_of_mem ?_ hn
  intro a b ha hb hne hid
  have hfa := h.1 a ha
  have hfb := h.1 b hb
  rw [hfa, hfb] at hid
  have := mkChunkId_inj hid
  exact hne (by rw [this.1, this.2])

theorem c8_witness :
    ((buildRagDatabase defaultSplitter
      [⟨"alpha text", some "x/a_1.pdf", none⟩,
       ⟨"beta text", some "a_1.pdf", none⟩] "documents" "t").1.map
        (fun e => e.id)).Nodup :=
  (c8_chunk_id_scheme defaultSplitter
    [⟨"alpha text", some "x/a_1.pdf", none⟩,
     ⟨"beta text", some "a_1.pdf", none⟩] "documents" "t").2


theorem c1_witness :
    (buildRagDatabase defaultSplitter [⟨"hi", some "a.pdf", none⟩]
      "documents" "t").2.chunkCount =
      (buildRagDatabase defaultSplitter [⟨"hi", some "a.pdf", none⟩]
        "documents" "t").1.length ∧
    ({ collectionName := "documents", documentCount := 1, chunkCount := 1,
       documents := [("a.pdf", ⟨1, []⟩)], createdAt := "t" } : BuildMeta).chunkCount =
      ([{ id := "a.pdf_0_0", document := "hi",
          metadata := { source := "a.pdf", chunkId := 0, documentId := 0,
                        page := none } }] : List StoreEntry).length :=
  ⟨c1_chunk_count_matches_store.1 defaultSplitter [⟨"hi", some "a.pdf", none⟩]
      "documents" "t",
   c1_chunk_count_matches_store.2.2 [] defaultSplitter [⟨"hi", some "a.pdf", none⟩]
      "documents" "t"
      ([{ id := "a.pdf_0_0", document := "hi",
          metadata := { source := "a.pdf", chunkId := 0, documentId := 0,
                        page := none } }],
       { collectionName := "documents", documentCount := 1, chunkCount := 1,
         documents := [("a.pdf", ⟨1, []⟩)], createdAt := "t" })
      rfl⟩

end SyftRag
